import Mathlib

/-!
# Verification of the Game Design Review task engine

Shallow embedding of the task-management logic of the repository
(`game-review.js` — the GitHub-storage `TaskManager` variant — and
`game-detail.js` — the IndexedDB `GameDetail` variant), together with
proofs and refutations of the specification's claims about it.

Conventions of the embedding:
* JS `null` / absent object keys become `Option`.
* ISO timestamp strings are ordered exactly as their underlying instants,
  so `createdAt`/`updatedAt` are modelled as `Int` instants.
* In-place mutation of the store is modelled by explicit state passing:
  each operation takes the current `Game` and returns the new `Game`.
* `showNotification(msg, kind)` calls that terminate an operation are
  modelled by an `Option Outcome` component of the result (`none` means
  the operation fell through without notifying the user).
* `Array.prototype.sort(cmp)` is modelled by `jsSortBy cmp`, a stable
  insertion sort driven by the integer comparator; this agrees with the
  ECMAScript-specified behaviour whenever the comparator is consistent
  on the elements being sorted.
-/

/-- Task buckets: the four fixed categories of `issues`. -/
inductive Category
  | bug
  | controls
  | quest
  | review
deriving DecidableEq, Repr

/-- The four-level severity scale used for both `priority` and `urgency`. -/
inductive Rank
  | critical
  | high
  | medium
  | low
deriving DecidableEq, Repr

/-- Task status; `opened` models the source's `'open'`. -/
inductive Status
  | opened
  | completed
deriving DecidableEq, Repr

/-- Comment status (`'open' // open, resolved, closed` in the source). -/
inductive CommentStatus
  | opened
  | resolved
  | closed
deriving DecidableEq, Repr

/-- Media link kind assigned by `getMediaType`. -/
inductive MediaType
  | image
  | video
deriving DecidableEq, Repr

/-- A user-visible `showNotification` message that ended an operation:
`ok` for kind `'success'`, `err` for kind `'error'`. -/
inductive Outcome
  | ok (msg : String)
  | err (msg : String)
deriving DecidableEq, Repr

/-- Stable insertion of `x` into `l` under the integer comparator `cmp`:
`x` is placed in front of the first element `y` with `cmp x y ≤ 0`. -/
def insertCmp {α : Type} (cmp : α → α → Int) (x : α) : List α → List α
  | [] => [x]
  | y :: ys => if cmp x y ≤ 0 then x :: y :: ys else y :: insertCmp cmp x ys

/-- Stable comparator sort, the model of `Array.prototype.sort(cmp)`. -/
def jsSortBy {α : Type} (cmp : α → α → Int) : List α → List α
  | [] => []
  | x :: xs => insertCmp cmp x (jsSortBy cmp xs)

/-- JS `String.prototype.startsWith` on character lists. -/
def startsWithChars : List Char → List Char → Bool
  | [], _ => true
  | _ :: _, [] => false
  | a :: as, b :: bs => a == b && startsWithChars as bs

/-- JS `String.prototype.includes` on character lists: `sub` occurs as a
contiguous run somewhere in the second list. -/
def containsChars (sub : List Char) : List Char → Bool
  | [] => sub.isEmpty
  | c :: cs => startsWithChars sub (c :: cs) || containsChars sub cs

/-- JS `String.prototype.trim`: strip leading and trailing whitespace. -/
def jsTrim (s : String) : String :=
  ⟨((s.data.dropWhile Char.isWhitespace).reverse.dropWhile Char.isWhitespace).reverse⟩

/-- JS `String.prototype.split('\n')` on character lists. -/
def splitLinesChars : List Char → List (List Char)
  | [] => [[]]
  | c :: cs =>
    let rest := splitLinesChars cs
    if c == '\n' then [] :: rest
    else
      match rest with
      | [] => [[c]]
      | l :: ls => (c :: l) :: ls

/-- JS `s.split('\n')`. -/
def jsLines (s : String) : List String :=
  (splitLinesChars s.data).map (fun cs => ⟨cs⟩)

/-- JS `String.prototype.toLowerCase` (ASCII case folding). -/
def jsToLower (s : String) : String :=
  ⟨s.data.map Char.toLower⟩

namespace GameReview

/-- An entry of `task.mediaLinks` as produced by `parseMediaLinks`. -/
structure MediaLink where
  url : String
  type : MediaType
deriving DecidableEq, Repr

/-- A task comment (`addComment` appends these). -/
structure Comment where
  id : String
  text : String
  author : String
  createdAt : Int
  status : CommentStatus
deriving DecidableEq, Repr

/-- A task as built by `TaskManager.createTask`. -/
structure Task where
  id : String
  title : String
  description : String
  category : Category
  priority : Option Rank
  urgency : Option Rank
  assignee : Option String
  status : Status
  createdAt : Int
  updatedAt : Int
  comments : List Comment
  completionComment : Option String
  completedBy : Option String
  mediaLinks : List MediaLink
deriving DecidableEq, Repr

/-- A `game.deletedTasks` entry: the spread of the deleted task's fields
(`...taskToDelete`) plus the audit fields added by `confirmDeleteTask`. -/
structure DeletedTask where
  task : Task
  deletedAt : Int
  deletedBy : String
  deleteReason : String
deriving DecidableEq, Repr

/-- A team member (`addTeamMember` shape). -/
structure Member where
  id : String
  name : String
  role : Option String
  createdAt : Int
deriving DecidableEq, Repr

/-- The `game.issues` object. Each field is `none` when the JSON object
lacks that key, and `some l` when the key maps to the array `l`. -/
structure Issues where
  bug : Option (List Task)
  controls : Option (List Task)
  quest : Option (List Task)
  review : Option (List Task)
deriving DecidableEq, Repr

/-- A game, restricted to the fields the task engine touches.
`issues := none` models a game object with no `issues` key at all. -/
structure Game where
  id : String
  name : String
  description : Option String
  genre : Option String
  completed : Bool
  createdAt : Int
  issues : Option Issues
  deletedTasks : List DeletedTask
deriving DecidableEq, Repr

/-- Key lookup `issues[category]`. -/
def getCat (is : Issues) : Category → Option (List Task)
  | Category.bug => is.bug
  | Category.controls => is.controls
  | Category.quest => is.quest
  | Category.review => is.review

/-- Key assignment `issues[category] = v`. -/
def setCat (is : Issues) : Category → Option (List Task) → Issues
  | Category.bug, v => { is with bug := v }
  | Category.controls, v => { is with controls := v }
  | Category.quest, v => { is with quest := v }
  | Category.review, v => { is with review := v }

/-- The object `{bug: [], controls: [], quest: [], review: []}` that
`createTask` installs when `game.issues` is missing entirely. -/
def freshIssues : Issues :=
  { bug := some [], controls := some [], quest := some [], review := some [] }

/-- The value of `game.issues` after `createTask`'s `if (!this.currentGame.issues)` repair. -/
def issuesOrFresh (g : Game) : Issues :=
  match g.issues with
  | none => freshIssues
  | some is => is

/-- Model of `Object.values(issues)`: the arrays of the present keys, in the fixed
creation order bug, controls, quest, review. -/
def Issues.valuesList (is : Issues) : List (List Task) :=
  (match is.bug with | some l => [l] | none => [])
    ++ (match is.controls with | some l => [l] | none => [])
    ++ (match is.quest with | some l => [l] | none => [])
    ++ (match is.review with | some l => [l] | none => [])

/-- Model of `Object.entries(issues)`: present keys with their arrays, same order. -/
def Issues.entriesList (is : Issues) : List (Category × List Task) :=
  (match is.bug with | some l => [(Category.bug, l)] | none => [])
    ++ (match is.controls with | some l => [(Category.controls, l)] | none => [])
    ++ (match is.quest with | some l => [(Category.quest, l)] | none => [])
    ++ (match is.review with | some l => [(Category.review, l)] | none => [])

/-- The category selection of `renderTasks`: `'all'` or one category. -/
inductive Filter
  | all
  | cat (c : Category)
deriving DecidableEq, Repr

/-- The `o.getD []` abbreviation used to state lemmas about option-valued arrays. -/
def optTasks (o : Option (List Task)) : List Task :=
  o.getD []

/-- The task-selection step of `renderTasks` (the spec's `filterTasks`):
for `'all'`, `Object.values(issues || {})` concatenated with
`tasks = tasks.concat(categoryTasks)`; otherwise
`this.currentGame.issues?.[category] || []`. -/
def selectTasks (g : Game) : Filter → List Task
  | Filter.all =>
    (match g.issues with
      | none => []
      | some is => is.valuesList.foldl (fun acc l => acc ++ l) [])
  | Filter.cat c =>
    match g.issues with
    | none => []
    | some is => (getCat is c).getD []

/-- The concatenation of the four (possibly missing) category arrays, the
normal form used by lemmas about `selectTasks g Filter.all`. -/
def issuesTasks (is : Issues) : List Task :=
  optTasks is.bug ++ optTasks is.controls ++ optTasks is.quest ++ optTasks is.review

/-- The `priorityOrder` / `urgencyOrder` table `{critical: 4, high: 3, medium: 2, low: 1}`. -/
def rankOf : Rank → Int
  | Rank.critical => 4
  | Rank.high => 3
  | Rank.medium => 2
  | Rank.low => 1

/-- First sort rule: `if (a.status !== b.status) return a.status === 'open' ? -1 : 1`;
`none` means the rule fell through to the next one. -/
def statusCmp (a b : Task) : Option Int :=
  if a.status = b.status then none
  else some (if a.status = Status.opened then -1 else 1)

/-- Second sort rule: applies only when both tasks have a priority
(`if (a.priority && b.priority)`) and the ranks differ; `none` otherwise. -/
def priorityCmp (a b : Task) : Option Int :=
  match a.priority, b.priority with
  | some pa, some pb =>
    if rankOf pa = rankOf pb then none else some (rankOf pb - rankOf pa)
  | _, _ => none

/-- Third sort rule, same shape for `urgency`. -/
def urgencyCmp (a b : Task) : Option Int :=
  match a.urgency, b.urgency with
  | some ua, some ub =>
    if rankOf ua = rankOf ub then none else some (rankOf ub - rankOf ua)
  | _, _ => none

/-- Final tie-break: `new Date(b.createdAt) - new Date(a.createdAt)`. -/
def dateCmp (a b : Task) : Int :=
  b.createdAt - a.createdAt

/-- The `renderTasks` comparator, rules tried top to bottom. -/
def cmpTask (a b : Task) : Int :=
  match statusCmp a b with
  | some v => v
  | none =>
    match priorityCmp a b with
    | some v => v
    | none =>
      match urgencyCmp a b with
      | some v => v
      | none => dateCmp a b

/-- The display ordering of `renderTasks` (the spec's `sortForDisplay`). -/
def sortForDisplay : List Task → List Task :=
  jsSortBy cmpTask

/-- Model of `renderTasks` restricted to its data effects: the displayed order, and
the game afterwards. `tasks.sort(...)` sorts in place, and for a specific
category `tasks` aliases the backing array `issues[category]`, so that
array ends up reordered; for `'all'` the loop of `concat` calls builds a
fresh array and the backing arrays are untouched. -/
def renderTasks (g : Game) (f : Filter) : List Task × Game :=
  let sorted := sortForDisplay (selectTasks g f)
  match f with
  | Filter.all => (sorted, g)
  | Filter.cat c =>
    match g.issues with
    | none => (sorted, g)
    | some is =>
      match getCat is c with
      | none => (sorted, g)
      | some _ => (sorted, { g with issues := some (setCat is c (some sorted)) })

/-- The table `['.jpg', '.jpeg', '.png', '.gif', '.webp']`. -/
def imageExtensions : List String :=
  [".jpg", ".jpeg", ".png", ".gif", ".webp"]

/-- JS `s.includes(sub)`: substring test. -/
def strIncludes (s sub : String) : Bool :=
  containsChars sub.data s.data

/-- Model of `TaskManager.getMediaType`. -/
def getMediaType (url : String) : Option MediaType :=
  let lowerUrl := jsToLower url
  if imageExtensions.any (fun ext => strIncludes lowerUrl ext) then
    some MediaType.image
  else if strIncludes lowerUrl "youtube.com/watch" || strIncludes lowerUrl "youtu.be/" then
    some MediaType.video
  else none

/-- Model of `TaskManager.parseMediaLinks`: trim the text, split into lines, and keep
each non-blank line whose `getMediaType` is non-null. -/
def parseMediaLinks (text : String) : List MediaLink :=
  if jsTrim text = "" then []
  else
    (jsLines (jsTrim text)).foldl
      (fun acc line =>
        let url := jsTrim line
        if url = "" then acc
        else
          match getMediaType url with
          | some t => acc ++ [{ url := url, type := t }]
          | none => acc)
      []

/-- The non-blank lines of the (trimmed) media-links text. -/
def nonBlankLines (text : String) : List String :=
  (jsLines (jsTrim text)).filter (fun line => decide (jsTrim line ≠ ""))

/-- One line's contribution to `parseMediaLinks`: `none` when the line is
blank or `getMediaType` rejects it. -/
def mediaPick (line : String) : Option MediaLink :=
  if jsTrim line = "" then none
  else (getMediaType (jsTrim line)).map (fun t => { url := jsTrim line, type := t })

/-- The input read from the add-task form. -/
structure CreateInput where
  title : String
  description : String
  category : Category
  priority : Option Rank
  urgency : Option Rank
  assignee : Option String
  mediaLinks : String
deriving DecidableEq, Repr

/-- The task object literal built by `createTask`: `status: 'open'`, fresh
timestamps, empty comments, and for `category === 'review'` the three
fields `priority`, `urgency`, `assignee` forced to `null`. -/
def buildTask (input : CreateInput) (now : Int) (newId : String) : Task :=
  { id := newId
    title := input.title
    description := input.description
    category := input.category
    priority := if input.category = Category.review then none else input.priority
    urgency := if input.category = Category.review then none else input.urgency
    assignee := if input.category = Category.review then none else input.assignee
    status := Status.opened
    createdAt := now
    updatedAt := now
    comments := []
    completionComment := none
    completedBy := none
    mediaLinks := parseMediaLinks input.mediaLinks }

/-- Model of `TaskManager.createTask` without the DOM reads: builds the task,
repairs a wholly-missing `issues` object, then pushes onto
`issues[task.category]`. Pushing onto a missing key throws a `TypeError`,
which the surrounding `try`/`catch` converts into the error notification. -/
def createTask (g : Game) (input : CreateInput) (now : Int) (newId : String) :
    Game × Option Outcome :=
  let task := buildTask input now newId
  let is1 := issuesOrFresh g
  match getCat is1 task.category with
  | none => (g, some (Outcome.err "Error creating task. Please try again."))
  | some arr =>
    ({ g with issues := some (setCat is1 task.category (some (arr ++ [task]))) },
      some (Outcome.ok "Task created successfully!"))

/-- Scan of one `Object.entries` pair: `tasks.find(t => t.id === taskId)`
on the array when the key is present. -/
def findEntry (c : Category) (o : Option (List Task)) (tid : String) :
    Option (Category × List Task × Task) :=
  match o with
  | none => none
  | some l =>
    match l.find? (fun t => decide (t.id = tid)) with
    | some tk => some (c, l, tk)
    | none => none

/-- The `for (const [cat, tasks] of Object.entries(...))` scan used by
`toggleTaskComplete`, `addComment` and `confirmDeleteTask`: first category
(in key order) containing a task with the given id, with its array. -/
def findInIssues (is : Issues) (tid : String) : Option (Category × List Task × Task) :=
  match findEntry Category.bug is.bug tid with
  | some r => some r
  | none =>
    match findEntry Category.controls is.controls tid with
    | some r => some r
    | none =>
      match findEntry Category.quest is.quest tid with
      | some r => some r
      | none => findEntry Category.review is.review tid

/-- In-place mutation of the object found by `find`: replace the first
element matching `p` by `t'`. -/
def setFirstMatching (p : Task → Bool) (t' : Task) : List Task → List Task
  | [] => []
  | t :: ts => if p t then t' :: ts else t :: setFirstMatching p t' ts

/-- Model of `this.members.find(m => m.id === memberId)?.name || 'Unknown'`. -/
def memberName (members : List Member) (memberId : String) : String :=
  ((members.find? (fun m => decide (m.id = memberId))).map Member.name).getD "Unknown"

/-- Model of `TaskManager.toggleTaskComplete`: scan for the task; when found, flip
its status, stamp `updatedAt`, clear the completion fields on reopening,
and notify; when the id matches nothing, fall through silently. -/
def toggleTaskComplete (g : Game) (taskId : String) (now : Int) :
    Game × Option Outcome :=
  match g.issues with
  | none => (g, none)
  | some is =>
    match findInIssues is taskId with
    | none => (g, none)
    | some (c, arr, tk) =>
      let newStatus := if tk.status = Status.completed then Status.opened else Status.completed
      let tk' : Task :=
        { tk with
          status := newStatus
          updatedAt := now
          completionComment := if newStatus = Status.opened then none else tk.completionComment
          completedBy := if newStatus = Status.opened then none else tk.completedBy }
      let arr' := setFirstMatching (fun t => decide (t.id = taskId)) tk' arr
      ({ g with issues := some (setCat is c (some arr')) },
        some (Outcome.ok
          (if newStatus = Status.completed then "Task marked as completed!" else "Task reopened!")))

/-- Model of `TaskManager.addComment`: trim the text; an empty text or an empty
author selection notifies an error and returns with the game untouched;
otherwise scan for the task and append the comment (silently falling
through when the id matches nothing). -/
def addComment (g : Game) (taskId : String) (textRaw authorId : String)
    (members : List Member) (now : Int) (newId : String) : Game × Option Outcome :=
  let commentText := jsTrim textRaw
  if commentText = "" then (g, some (Outcome.err "Please enter a comment."))
  else if authorId = "" then (g, some (Outcome.err "Please select a team member."))
  else
    match g.issues with
    | none => (g, none)
    | some is =>
      match findInIssues is taskId with
      | none => (g, none)
      | some (c, arr, tk) =>
        let comment : Comment :=
          { id := newId
            text := commentText
            author := memberName members authorId
            createdAt := now
            status := CommentStatus.opened }
        let tk' : Task := { tk with comments := tk.comments ++ [comment], updatedAt := now }
        let arr' := setFirstMatching (fun t => decide (t.id = taskId)) tk' arr
        ({ g with issues := some (setCat is c (some arr')) },
          some (Outcome.ok "Comment added successfully!"))

/-- Model of `TaskManager.confirmDeleteTask` (the engine part): validate the reason
and the member selection, scan for the task, append the audit snapshot to
`deletedTasks`, and remove the task from its category array
(`findIndex` + `splice(index, 1)`, i.e. erase the first match, with the
`index !== -1` guard leaving the array unchanged when nothing matches). -/
def deleteTask (g : Game) (taskId : String) (reasonRaw deletedById : String)
    (members : List Member) (now : Int) : Game × Option Outcome :=
  let reason := jsTrim reasonRaw
  if reason = "" then (g, some (Outcome.err "Please provide a reason for deletion."))
  else if deletedById = "" then (g, some (Outcome.err "Please select a team member."))
  else
    match g.issues with
    | none => (g, none)
    | some is =>
      match findInIssues is taskId with
      | none => (g, none)
      | some (c, arr, tk) =>
        let snap : DeletedTask :=
          { task := tk
            deletedAt := now
            deletedBy := memberName members deletedById
            deleteReason := reason }
        let arr' := arr.eraseP (fun t => decide (t.id = taskId))
        ({ g with
            issues := some (setCat is c (some arr'))
            deletedTasks := g.deletedTasks ++ [snap] },
          some (Outcome.ok "Task deleted successfully!"))

end GameReview

namespace GameDetail

/-- An issue record as stored by `GameDetail.addIssue` (the IndexedDB
variant): no priority field, urgency always present (`'low'` for
reviews), free-form status string. -/
structure Issue where
  id : Nat
  gameId : Nat
  title : String
  category : Category
  urgency : Rank
  description : String
  assigneeId : Option String
  status : String
  mediaLinks : List String
  createdAt : Int
  updatedAt : Int
deriving DecidableEq, Repr

/-- The `urgencyOrder` table of `renderIssues`: `{critical: 0, high: 1, medium: 2, low: 3}`. -/
def urgOrder : Rank → Int
  | Rank.critical => 0
  | Rank.high => 1
  | Rank.medium => 2
  | Rank.low => 3

/-- The `renderIssues` comparator: reviews always after non-reviews, two
reviews equal, non-reviews by ascending urgency order value. -/
def cmpIssue (a b : Issue) : Int :=
  if a.category = Category.review ∧ b.category ≠ Category.review then 1
  else if a.category ≠ Category.review ∧ b.category = Category.review then -1
  else if a.category = Category.review ∧ b.category = Category.review then 0
  else urgOrder a.urgency - urgOrder b.urgency

/-- The display ordering of `GameDetail.renderIssues`. -/
def sortIssuesForDisplay : List Issue → List Issue :=
  jsSortBy cmpIssue

end GameDetail

namespace GameReview

/-- A plain open bug task used as the base of the concrete test data. -/
def baseTask : Task :=
  { id := "t1"
    title := "T"
    description := ""
    category := Category.bug
    priority := none
    urgency := none
    assignee := none
    status := Status.opened
    createdAt := 0
    updatedAt := 0
    comments := []
    completionComment := none
    completedBy := none
    mediaLinks := [] }

/-- An older open task (creation instant 1). -/
def exTaskOld : Task :=
  { baseTask with id := "old", createdAt := 1 }

/-- A newer open task (creation instant 2). -/
def exTaskNew : Task :=
  { baseTask with id := "new", createdAt := 2 }

/-- A review task newer than `exTaskBug`. -/
def exTaskReview : Task :=
  { baseTask with id := "r1", category := Category.review, createdAt := 5 }

/-- A high-priority open bug task older than `exTaskReview`. -/
def exTaskBug : Task :=
  { baseTask with
    id := "b1"
    priority := some Rank.high
    urgency := some Rank.high
    createdAt := 3 }

/-- A game whose `bug` array holds two tasks in non-display order. -/
def exGameMut : Game :=
  { id := "g1"
    name := "G"
    description := none
    genre := none
    completed := false
    createdAt := 0
    issues := some
      { bug := some [exTaskOld, exTaskNew]
        controls := some []
        quest := some []
        review := some [] }
    deletedTasks := [] }

/-- A game whose `issues` object lacks the `quest` key. -/
def exGamePartial : Game :=
  { exGameMut with
    id := "g2"
    issues := some
      { bug := some []
        controls := some []
        quest := none
        review := some [] } }

/-- A game with no `issues` object at all. -/
def exGameNoIssues : Game :=
  { exGameMut with id := "g3", issues := none }

/-- A game holding exactly one task, `baseTask` (id `"t1"`). -/
def exGameOne : Game :=
  { exGameMut with
    id := "g4"
    issues := some
      { bug := some [baseTask]
        controls := some []
        quest := some []
        review := some [] } }

/-- Add-task form input for a bug with priority, urgency and assignee set. -/
def exInputBug : CreateInput :=
  { title := "B"
    description := ""
    category := Category.bug
    priority := some Rank.high
    urgency := some Rank.low
    assignee := some "m1"
    mediaLinks := "" }

/-- The same input aimed at the (possibly missing) `quest` category. -/
def exInputQuest : CreateInput :=
  { exInputBug with category := Category.quest }

/-- The same input with `category = review` and non-null priority, urgency
and assignee supplied. -/
def exInputReview : CreateInput :=
  { exInputBug with category := Category.review }

/-- A team member used by the deletion witness. -/
def exMember : Member :=
  { id := "m1", name := "Ada", role := none, createdAt := 0 }

end GameReview

/-- Predicate for reviews-last ordering on the task variant: whenever a review precedes a task,
that later task is also a review — i.e. every `review` task comes after
every non-review task. -/
def reviewsLastTasks (l : List GameReview.Task) : Prop :=
  l.Pairwise (fun a b => a.category = Category.review → b.category = Category.review)

/-- Predicate for reviews-last ordering on the issue variant of `game-detail.js`. -/
def reviewsLastIssues (l : List GameDetail.Issue) : Prop :=
  l.Pairwise (fun a b => a.category = Category.review → b.category = Category.review)

/-- Predicate for open-before-completed ordering: whenever a completed task
precedes a task, that later task is completed too. -/
def openFirst (l : List GameReview.Task) : Prop :=
  l.Pairwise (fun a b => a.status = Status.completed → b.status = Status.completed)

/-! ## Generic lemmas about the comparator sort -/

theorem mem_insertCmp {α : Type} (cmp : α → α → Int) (x a : α) :
    ∀ l : List α, a ∈ insertCmp cmp x l ↔ a = x ∨ a ∈ l := by
  intro l
  induction l with
  | nil => simp [insertCmp]
  | cons y ys ih =>
    rw [insertCmp]
    by_cases h : cmp x y ≤ 0
    · rw [if_pos h]
      simp
    · rw [if_neg h]
      simp only [List.mem_cons, ih]
      tauto

theorem pairwise_insertCmp_key {α : Type} (q : α → Prop) (cmp : α → α → Int)
    (h1 : ∀ a b, q a → ¬ q b → 0 < cmp a b)
    (h2 : ∀ a b, ¬ q a → q b → cmp a b ≤ 0) (x : α) :
    ∀ l : List α, l.Pairwise (fun a b => q a → q b) →
      (insertCmp cmp x l).Pairwise (fun a b => q a → q b) := by
  intro l
  induction l with
  | nil =>
    intro _
    simp [insertCmp]
  | cons y ys ih =>
    intro hl
    rw [List.pairwise_cons] at hl
    obtain ⟨hy, hys⟩ := hl
    rw [insertCmp]
    by_cases hxy : cmp x y ≤ 0
    · rw [if_pos hxy]
      refine List.Pairwise.cons ?_ (List.Pairwise.cons hy hys)
      intro b hb hqx
      have hqy : q y := by
        by_contra hqy
        exact absurd (h1 x y hqx hqy) (by omega)
      rcases List.mem_cons.mp hb with rfl | hb
      · exact hqy
      · exact hy b hb hqy
    · rw [if_neg hxy]
      refine List.Pairwise.cons ?_ (ih hys)
      intro b hb
      rcases (mem_insertCmp cmp x b ys).mp hb with rfl | hb
      · intro hqy
        by_contra hqx
        exact absurd (h2 b y hqx hqy) (by omega)
      · exact hy b hb

theorem pairwise_jsSortBy_key {α : Type} (q : α → Prop) (cmp : α → α → Int)
    (h1 : ∀ a b, q a → ¬ q b → 0 < cmp a b)
    (h2 : ∀ a b, ¬ q a → q b → cmp a b ≤ 0) :
    ∀ l : List α, (jsSortBy cmp l).Pairwise (fun a b => q a → q b) := by
  intro l
  induction l with
  | nil => simp [jsSortBy]
  | cons x xs ih =>
    rw [jsSortBy]
    exact pairwise_insertCmp_key q cmp h1 h2 x _ ih

theorem chain_insertCmp {α : Type} (cmp : α → α → Int)
    (hasym : ∀ a b, 0 < cmp a b → cmp b a ≤ 0) (x : α) :
    ∀ l : List α, l.Chain' (fun a b => cmp a b ≤ 0) →
      (insertCmp cmp x l).Chain' (fun a b => cmp a b ≤ 0) := by
  intro l
  induction l with
  | nil =>
    intro _
    simp [insertCmp]
  | cons y ys ih =>
    intro hl
    rw [insertCmp]
    by_cases hxy : cmp x y ≤ 0
    · rw [if_pos hxy]
      exact List.Chain'.cons hxy hl
    · rw [if_neg hxy]
      have hyx : cmp y x ≤ 0 := hasym x y (by omega)
      have hins := ih hl.tail
      cases ys with
      | nil =>
        rw [insertCmp]
        exact List.chain'_pair.mpr hyx
      | cons z zs =>
        rw [insertCmp] at hins ⊢
        by_cases hxz : cmp x z ≤ 0
        · rw [if_pos hxz] at hins ⊢
          exact List.Chain'.cons hyx hins
        · rw [if_neg hxz] at hins ⊢
          exact List.Chain'.cons (List.chain'_cons.mp hl).1 hins

theorem chain_jsSortBy {α : Type} (cmp : α → α → Int)
    (hasym : ∀ a b, 0 < cmp a b → cmp b a ≤ 0) :
    ∀ l : List α, (jsSortBy cmp l).Chain' (fun a b => cmp a b ≤ 0) := by
  intro l
  induction l with
  | nil => simp [jsSortBy]
  | cons x xs ih =>
    rw [jsSortBy]
    exact chain_insertCmp cmp hasym x _ ih

theorem jsSortBy_eq_of_chain {α : Type} (cmp : α → α → Int) :
    ∀ l : List α, l.Chain' (fun a b => cmp a b ≤ 0) → jsSortBy cmp l = l := by
  intro l
  induction l with
  | nil =>
    intro _
    rfl
  | cons x xs ih =>
    intro hl
    rw [jsSortBy, ih hl.tail]
    cases xs with
    | nil => rfl
    | cons y ys =>
      rw [insertCmp, if_pos (List.chain'_cons.mp hl).1]

/-! ## Comparator lemmas -/

namespace GameReview

theorem statusCmp_comm (a b : Task) :
    statusCmp b a = (statusCmp a b).map (fun v => -v) := by
  cases h1 : a.status <;> cases h2 : b.status <;> simp [statusCmp, h1, h2]

theorem priorityCmp_comm (a b : Task) :
    priorityCmp b a = (priorityCmp a b).map (fun v => -v) := by
  unfold priorityCmp
  cases a.priority with
  | none => cases b.priority <;> simp
  | some pa =>
    cases b.priority with
    | none => simp
    | some pb =>
      by_cases h : rankOf pa = rankOf pb
      · simp [h]
      · simp [h, Ne.symm h]

theorem urgencyCmp_comm (a b : Task) :
    urgencyCmp b a = (urgencyCmp a b).map (fun v => -v) := by
  unfold urgencyCmp
  cases a.urgency with
  | none => cases b.urgency <;> simp
  | some ua =>
    cases b.urgency with
    | none => simp
    | some ub =>
      by_cases h : rankOf ua = rankOf ub
      · simp [h]
      · simp [h, Ne.symm h]

theorem cmpTask_comm (a b : Task) : cmpTask b a = -cmpTask a b := by
  unfold cmpTask
  rw [statusCmp_comm, priorityCmp_comm, urgencyCmp_comm]
  cases statusCmp a b <;> cases priorityCmp a b <;> cases urgencyCmp a b <;>
    simp [dateCmp]

theorem cmpTask_asym (a b : Task) (h : 0 < cmpTask a b) : cmpTask b a ≤ 0 := by
  rw [cmpTask_comm]
  omega

theorem cmpTask_of_completed_opened {a b : Task}
    (ha : a.status = Status.completed) (hb : b.status = Status.opened) :
    cmpTask a b = 1 := by
  simp [cmpTask, statusCmp, ha, hb]

theorem cmpTask_of_opened_completed {a b : Task}
    (ha : a.status = Status.opened) (hb : b.status = Status.completed) :
    cmpTask a b = -1 := by
  simp [cmpTask, statusCmp, ha, hb]

end GameReview

/-- Claim C9: `sortForDisplay` is idempotent — sorting an already-sorted
list produces the same order. The sort always yields a list in which every
adjacent pair compares `≤ 0`, and such a list is a fixed point of the
sort, the comparator being sign-antisymmetric. -/
theorem sortForDisplay_idempotent (l : List GameReview.Task) :
    GameReview.sortForDisplay (GameReview.sortForDisplay l) = GameReview.sortForDisplay l :=
  jsSortBy_eq_of_chain GameReview.cmpTask _
    (chain_jsSortBy GameReview.cmpTask GameReview.cmpTask_asym l)

/-- Claim C4: in the output of `sortForDisplay`, every open task precedes
every completed task — once a completed task occurs, everything after it
is completed. -/
theorem sortForDisplay_open_before_completed (l : List GameReview.Task) :
    openFirst (GameReview.sortForDisplay l) := by
  refine pairwise_jsSortBy_key (fun t => t.status = Status.completed) GameReview.cmpTask
    ?_ ?_ l
  · intro a b ha hb
    have hb' : b.status = Status.opened := by
      cases h : b.status
      · rfl
      · exact absurd h hb
    rw [GameReview.cmpTask_of_completed_opened ha hb']
    omega
  · intro a b ha hb
    have ha' : a.status = Status.opened := by
      cases h : a.status
      · rfl
      · exact absurd h ha
    rw [GameReview.cmpTask_of_opened_completed ha' hb]
    omega

/-! ## Selection, scanning and counting lemmas -/

namespace GameReview

theorem selectTasks_all_eq {g : Game} {is : Issues} (hg : g.issues = some is) :
    selectTasks g Filter.all = issuesTasks is := by
  obtain ⟨b, c, q, r⟩ := is
  simp only [selectTasks, hg]
  cases b <;> cases c <;> cases q <;> cases r <;>
    simp [Issues.valuesList, issuesTasks, optTasks]

theorem selectTasks_all_none {g : Game} (hg : g.issues = none) :
    selectTasks g Filter.all = [] := by
  simp [selectTasks, hg]

theorem mem_issuesTasks_of_getCat {is : Issues} {c : Category} {arr : List Task} {tk : Task}
    (hget : getCat is c = some arr) (hmem : tk ∈ arr) : tk ∈ issuesTasks is := by
  cases c <;> simp_all [getCat, issuesTasks, optTasks]

theorem countP_issuesTasks_setCat (p : Task → Bool) (is : Issues) (c : Category)
    (v : Option (List Task)) :
    (issuesTasks (setCat is c v)).countP p + (optTasks (getCat is c)).countP p
      = (issuesTasks is).countP p + (optTasks v).countP p := by
  cases c <;> simp [issuesTasks, setCat, getCat, List.countP_append] <;> omega

theorem findEntry_eq_none {c : Category} {o : Option (List Task)} {tid : String}
    (h : ∀ tk ∈ optTasks o, ¬ tk.id = tid) : findEntry c o tid = none := by
  cases o with
  | none => rfl
  | some l =>
    have hf : l.find? (fun t => decide (t.id = tid)) = none := by
      rw [List.find?_eq_none]
      intro x hx
      simpa using h x (by simpa [optTasks] using hx)
    simp [findEntry, hf]

theorem findEntry_none_mem {c : Category} {o : Option (List Task)} {tid : String}
    (h : findEntry c o tid = none) : ∀ tk ∈ optTasks o, ¬ tk.id = tid := by
  cases o with
  | none => simp [optTasks]
  | some l =>
    cases hf : l.find? (fun t => decide (t.id = tid)) with
    | none =>
      intro tk hm
      have := List.find?_eq_none.mp hf tk (by simpa [optTasks] using hm)
      simpa using this
    | some tk0 => simp [findEntry, hf] at h

theorem findEntry_eq_some {c : Category} {o : Option (List Task)} {tid : String}
    {r : Category × List Task × Task} (h : findEntry c o tid = some r) :
    ∃ l tk, o = some l ∧ l.find? (fun t => decide (t.id = tid)) = some tk ∧ r = (c, l, tk) := by
  cases o with
  | none => simp [findEntry] at h
  | some l =>
    cases hf : l.find? (fun t => decide (t.id = tid)) with
    | none => simp [findEntry, hf] at h
    | some tk =>
      refine ⟨l, tk, rfl, hf, ?_⟩
      simp [findEntry, hf] at h
      exact h.symm

theorem findInIssues_none_mem {is : Issues} {tid : String}
    (h : findInIssues is tid = none) : ∀ tk ∈ issuesTasks is, ¬ tk.id = tid := by
  rw [findInIssues] at h
  cases hb : findEntry Category.bug is.bug tid with
  | some r => rw [hb] at h; exact absurd h (by simp)
  | none =>
    rw [hb] at h
    cases hc : findEntry Category.controls is.controls tid with
    | some r => rw [hc] at h; exact absurd h (by simp)
    | none =>
      rw [hc] at h
      cases hq : findEntry Category.quest is.quest tid with
      | some r => rw [hq] at h; exact absurd h (by simp)
      | none =>
        rw [hq] at h
        intro tk hm
        rcases List.mem_append.mp hm with hm3 | hmr
        · rcases List.mem_append.mp hm3 with hm2 | hmq
          · rcases List.mem_append.mp hm2 with hmb | hmc
            · exact findEntry_none_mem hb tk hmb
            · exact findEntry_none_mem hc tk hmc
          · exact findEntry_none_mem hq tk hmq
        · exact findEntry_none_mem h tk hmr

theorem findInIssues_eq_some {is : Issues} {tid : String} {c : Category}
    {arr : List Task} {tk : Task}
    (h : findInIssues is tid = some (c, arr, tk)) :
    getCat is c = some arr ∧ arr.find? (fun t => decide (t.id = tid)) = some tk := by
  rw [findInIssues] at h
  cases hb : findEntry Category.bug is.bug tid with
  | some r =>
    rw [hb] at h
    obtain ⟨l, tk0, ho, hf, rfl⟩ := findEntry_eq_some hb
    simp only [Option.some.injEq, Prod.mk.injEq] at h
    obtain ⟨rfl, rfl, rfl⟩ := h
    exact ⟨by simpa [getCat] using ho, hf⟩
  | none =>
    rw [hb] at h
    cases hc : findEntry Category.controls is.controls tid with
    | some r =>
      rw [hc] at h
      obtain ⟨l, tk0, ho, hf, rfl⟩ := findEntry_eq_some hc
      simp only [Option.some.injEq, Prod.mk.injEq] at h
      obtain ⟨rfl, rfl, rfl⟩ := h
      exact ⟨by simpa [getCat] using ho, hf⟩
    | none =>
      rw [hc] at h
      cases hq : findEntry Category.quest is.quest tid with
      | some r =>
        rw [hq] at h
        obtain ⟨l, tk0, ho, hf, rfl⟩ := findEntry_eq_some hq
        simp only [Option.some.injEq, Prod.mk.injEq] at h
        obtain ⟨rfl, rfl, rfl⟩ := h
        exact ⟨by simpa [getCat] using ho, hf⟩
      | none =>
        rw [hq] at h
        obtain ⟨l, tk0, ho, hf, heq⟩ := findEntry_eq_some h
        simp only [Prod.mk.injEq] at heq
        obtain ⟨rfl, rfl, rfl⟩ := heq
        exact ⟨by simpa [getCat] using ho, hf⟩

end GameReview

/-! ## Counting helpers -/

theorem countP_eraseP_of_find {α : Type} (p : α → Bool) :
    ∀ (l : List α) (x : α), l.find? p = some x →
      (l.eraseP p).countP p + 1 = l.countP p := by
  intro l
  induction l with
  | nil =>
    intro x h
    simp at h
  | cons a l ih =>
    intro x h
    by_cases hp : p a
    · rw [List.eraseP_cons_of_pos hp, List.countP_cons, if_pos hp]
    · rw [List.find?_cons_of_neg _ hp] at h
      rw [List.eraseP_cons_of_neg hp, List.countP_cons, List.countP_cons, if_neg hp]
      have := ih x h
      omega

theorem countP_pos_of_find {α : Type} (p : α → Bool) (l : List α) (x : α)
    (h : l.find? p = some x) : 0 < l.countP p :=
  List.countP_pos_iff.mpr ⟨x, List.mem_of_find?_eq_some h, List.find?_some h⟩

theorem countP_le_of_imp {α : Type} (p q : α → Bool) :
    ∀ l : List α, (∀ a ∈ l, p a = true → q a = true) → l.countP p ≤ l.countP q := by
  intro l
  induction l with
  | nil => intro _; simp
  | cons a l ih =>
    intro h
    rw [List.countP_cons, List.countP_cons]
    have h1 := ih (fun b hb => h b (List.mem_cons_of_mem a hb))
    by_cases hp : p a
    · rw [if_pos hp, if_pos (h a (List.mem_cons_self a l) hp)]
      omega
    · rw [if_neg hp]
      have : (0 : Nat) ≤ if q a then 1 else 0 := by positivity
      omega

theorem countP_lt_of_gap {α : Type} (p q : α → Bool) :
    ∀ l : List α, (∀ a ∈ l, p a = true → q a = true) →
      ∀ x ∈ l, q x = true → p x = false → l.countP p < l.countP q := by
  intro l
  induction l with
  | nil =>
    intro _ x hx
    simp at hx
  | cons a l ih =>
    intro h x hx hqx hpx
    rw [List.countP_cons, List.countP_cons]
    have hmono := countP_le_of_imp p q l (fun b hb => h b (List.mem_cons_of_mem a hb))
    rcases List.mem_cons.mp hx with rfl | hx'
    · rw [hpx, hqx]
      simp
      omega
    · have hlt := ih (fun b hb => h b (List.mem_cons_of_mem a hb)) x hx' hqx hpx
      by_cases hp : p a
      · rw [if_pos hp, if_pos (h a (List.mem_cons_self a l) hp)]
        omega
      · rw [if_neg hp]
        have : (0 : Nat) ≤ if q a then 1 else 0 := by positivity
        omega

theorem length_filterMap_eq_countP {α β : Type} (f : α → Option β) :
    ∀ l : List α, (l.filterMap f).length = l.countP (fun a => (f a).isSome) := by
  intro l
  induction l with
  | nil => rfl
  | cons a l ih =>
    rw [List.filterMap_cons, List.countP_cons]
    cases hf : f a <;> simp [hf, ih]

/-! ## `parseMediaLinks` normal form -/

namespace GameReview

theorem foldl_mediaAcc (lines : List String) :
    ∀ acc : List MediaLink,
      lines.foldl
        (fun acc line =>
          let url := jsTrim line
          if url = "" then acc
          else
            match getMediaType url with
            | some t => acc ++ [{ url := url, type := t }]
            | none => acc)
        acc
      = acc ++ lines.filterMap mediaPick := by
  induction lines with
  | nil =>
    intro acc
    simp
  | cons l ls ih =>
    intro acc
    rw [List.foldl_cons, List.filterMap_cons]
    by_cases h : jsTrim l = ""
    · simp only [h, if_pos rfl]
      rw [ih]
      simp [mediaPick, h]
    · cases hm : getMediaType (jsTrim l) with
      | some t =>
        simp only [if_neg h, hm]
        rw [ih]
        simp [mediaPick, h, hm]
      | none =>
        simp only [if_neg h, hm]
        rw [ih]
        simp [mediaPick, h, hm]

theorem parseMediaLinks_eq_filterMap (text : String) :
    parseMediaLinks text = (jsLines (jsTrim text)).filterMap mediaPick := by
  unfold parseMediaLinks
  by_cases h : jsTrim text = ""
  · rw [if_pos h, h]
    rfl
  · rw [if_neg h, foldl_mediaAcc]
    simp

end GameReview

/-! ## Claim C3: review placement in the display order -/

/-- Claim C3, counterexample: `sortForDisplay` (the GitHub-storage
variant's comparator) has no review rule at all. Sorting an open review
created at instant 5 together with an open high-priority bug created at
instant 3 leaves the review first — tied on status, the priority and
urgency rules are skipped because the review's fields are `null`, and the
newest-first date rule puts the review ahead of the bug. -/
theorem sortForDisplay_reviews_not_last :
    ¬ reviewsLastTasks
      (GameReview.sortForDisplay [GameReview.exTaskReview, GameReview.exTaskBug]) := by
  unfold reviewsLastTasks
  decide

/-- Claim C3, amended: the reviews-always-last rule exists only in the
`game-detail.js` variant. In the output of `GameDetail.renderIssues`'s
sort, every review issue comes after every non-review issue. -/
theorem sortIssuesForDisplay_reviews_last (l : List GameDetail.Issue) :
    reviewsLastIssues (GameDetail.sortIssuesForDisplay l) := by
  refine pairwise_jsSortBy_key (fun i => i.category = Category.review) GameDetail.cmpIssue
    ?_ ?_ l
  · intro a b ha hb
    simp [GameDetail.cmpIssue, ha, hb]
  · intro a b ha hb
    simp [GameDetail.cmpIssue, ha, hb]

/-! ## Claim C2: does rendering mutate the backing arrays? -/

/-- Claim C2, counterexample: selecting a specific category hands the
backing array itself to the in-place `Array.prototype.sort`. Rendering
the `bug` category of a game whose `bug` array is `[old, new]` (old
created first) reorders that backing array to `[new, old]`, so the game
is changed by rendering. -/
theorem renderTasks_mutates_backing :
    (GameReview.renderTasks GameReview.exGameMut
      (GameReview.Filter.cat Category.bug)).2 ≠ GameReview.exGameMut := by
  decide

/-- Claim C2, amended: with the `'all'` selection the sort works on the
freshly concatenated list and the game is untouched; with a specific
category whose key is present, rendering replaces that category's backing
array by its sorted order. -/
theorem renderTasks_mutation_behavior (g : GameReview.Game) :
    (GameReview.renderTasks g GameReview.Filter.all).2 = g ∧
    ∀ (c : Category) (is : GameReview.Issues) (arr : List GameReview.Task),
      g.issues = some is → GameReview.getCat is c = some arr →
      (GameReview.renderTasks g (GameReview.Filter.cat c)).2 =
        { g with
          issues := some (GameReview.setCat is c (some (GameReview.sortForDisplay arr))) } := by
  constructor
  · rfl
  · intro c is arr h1 h2
    simp [GameReview.renderTasks, GameReview.selectTasks, h1, h2]

/-- Witness for the amended C2 theorem at the concrete game
`exGameMut`: rendering `'all'` leaves it unchanged, rendering the `bug`
category replaces the `bug` array by its sorted order. -/
theorem renderTasks_mutation_behavior_witness :
    (GameReview.renderTasks GameReview.exGameMut GameReview.Filter.all).2 =
      GameReview.exGameMut ∧
    (GameReview.renderTasks GameReview.exGameMut
        (GameReview.Filter.cat Category.bug)).2 =
      { GameReview.exGameMut with
        issues := some (GameReview.setCat
          { bug := some [GameReview.exTaskOld, GameReview.exTaskNew]
            controls := some []
            quest := some []
            review := some [] }
          Category.bug
          (some (GameReview.sortForDisplay
            [GameReview.exTaskOld, GameReview.exTaskNew]))) } :=
  ⟨(renderTasks_mutation_behavior GameReview.exGameMut).1,
   (renderTasks_mutation_behavior GameReview.exGameMut).2 Category.bug _ _ rfl rfl⟩

/-! ## Claim C1: review tasks are stored with null priority, urgency, assignee -/

/-- Claim C1: every task created through `createTask` with
`category == 'review'` is stored (appended to the `review` array) with
`priority`, `urgency` and `assignee` all `null`, whatever values the
input supplied. -/
theorem createTask_review_nulls (g : GameReview.Game) (input : GameReview.CreateInput)
    (now : Int) (newId : String)
    (hcat : input.category = Category.review)
    (arr : List GameReview.Task)
    (harr : GameReview.getCat (GameReview.issuesOrFresh g) Category.review = some arr) :
    (GameReview.createTask g input now newId).1.issues =
      some (GameReview.setCat (GameReview.issuesOrFresh g) Category.review
        (some (arr ++ [GameReview.buildTask input now newId]))) ∧
    (GameReview.buildTask input now newId).priority = none ∧
    (GameReview.buildTask input now newId).urgency = none ∧
    (GameReview.buildTask input now newId).assignee = none := by
  refine ⟨?_, by simp [GameReview.buildTask, hcat], by simp [GameReview.buildTask, hcat],
    by simp [GameReview.buildTask, hcat]⟩
  have hb : (GameReview.buildTask input now newId).category = Category.review := by
    simp [GameReview.buildTask, hcat]
  have hc : GameReview.getCat (GameReview.issuesOrFresh g)
      (GameReview.buildTask input now newId).category = some arr := by
    rw [hb]
    exact harr
  simp only [GameReview.createTask]
  rw [hc]
  simp [hb]

/-- Witness for C1: creating a review task with priority `high`, urgency
`low` and an assignee supplied stores it with all three fields `null`. -/
theorem createTask_review_nulls_witness :
    (GameReview.createTask GameReview.exGameNoIssues GameReview.exInputReview 0 "n1").1.issues =
      some (GameReview.setCat (GameReview.issuesOrFresh GameReview.exGameNoIssues)
        Category.review
        (some ([] ++ [GameReview.buildTask GameReview.exInputReview 0 "n1"]))) ∧
    (GameReview.buildTask GameReview.exInputReview 0 "n1").priority = none ∧
    (GameReview.buildTask GameReview.exInputReview 0 "n1").urgency = none ∧
    (GameReview.buildTask GameReview.exInputReview 0 "n1").assignee = none :=
  createTask_review_nulls GameReview.exGameNoIssues GameReview.exInputReview 0 "n1"
    rfl [] rfl

/-! ## Claim C5: repair of missing `issues` keys -/

/-- Claim C5, counterexample: `createTask` repairs only a wholly-missing
`issues` object. On a game whose `issues` lacks the `quest` key, creating
a bug task succeeds — yet the `quest` key is still absent afterwards, so
the mutation leaves the issues object without the four keys. -/
theorem createTask_leaves_missing_key :
    (GameReview.createTask GameReview.exGamePartial GameReview.exInputBug 0 "n2").2 =
      some (Outcome.ok "Task created successfully!") ∧
    ((GameReview.createTask GameReview.exGamePartial GameReview.exInputBug 0 "n2").1.issues.map
      GameReview.Issues.quest) = some none := by
  decide

/-- Claim C5, amended: when `game.issues` is missing entirely,
`createTask` installs a fresh object with all four keys present; when
`issues` exists but the target category key is absent, nothing is
repaired — the push throws, the catch shows the error notification, and
the game is unchanged (missing non-target keys are likewise left absent,
as the counterexample shows). -/
theorem createTask_repair_behavior (g : GameReview.Game) (input : GameReview.CreateInput)
    (now : Int) (newId : String) :
    (g.issues = none →
      ((GameReview.createTask g input now newId).1.issues.map
        (fun is => is.bug.isSome && is.controls.isSome && is.quest.isSome && is.review.isSome))
        = some true) ∧
    (∀ is : GameReview.Issues, g.issues = some is →
      GameReview.getCat is input.category = none →
      GameReview.createTask g input now newId =
        (g, some (Outcome.err "Error creating task. Please try again."))) := by
  constructor
  · intro hg
    have h1 : GameReview.issuesOrFresh g = GameReview.freshIssues := by
      simp [GameReview.issuesOrFresh, hg]
    simp only [GameReview.createTask, h1]
    cases hcat : input.category <;>
      simp [GameReview.buildTask, hcat, GameReview.freshIssues, GameReview.getCat,
        GameReview.setCat]
  · intro is hg hnone
    have h1 : GameReview.issuesOrFresh g = is := by
      simp [GameReview.issuesOrFresh, hg]
    have hb : (GameReview.buildTask input now newId).category = input.category := rfl
    simp only [GameReview.createTask, h1, hb, hnone]

/-- Witness for the amended C5 theorem: creating on a game with no
`issues` object yields all four keys; creating a quest task on a game
whose `quest` key is missing fails with the error notification and
leaves the game unchanged. -/
theorem createTask_repair_behavior_witness :
    ((GameReview.createTask GameReview.exGameNoIssues GameReview.exInputBug 0 "n3").1.issues.map
      (fun is => is.bug.isSome && is.controls.isSome && is.quest.isSome && is.review.isSome))
      = some true ∧
    GameReview.createTask GameReview.exGamePartial GameReview.exInputQuest 0 "n4" =
      (GameReview.exGamePartial, some (Outcome.err "Error creating task. Please try again.")) :=
  ⟨(createTask_repair_behavior GameReview.exGameNoIssues GameReview.exInputBug 0 "n3").1 rfl,
   (createTask_repair_behavior GameReview.exGamePartial GameReview.exInputQuest 0 "n4").2
     _ rfl rfl⟩

/-! ## Claim C7: behaviour of `setTaskStatus` on an unknown task id -/

/-- Claim C7, counterexample: `toggleTaskComplete` never raises or reports
a `NotFoundError`. On a game that does contain tasks, toggling an id that
matches nothing returns the game unchanged and produces no notification
at all — the `if (task)` guard simply skips everything, leaving the
caller uninformed. (`completeTaskWithComment` has the same guard.) -/
theorem toggleTaskComplete_unknown_id_silent :
    (∀ tk ∈ GameReview.selectTasks GameReview.exGameOne GameReview.Filter.all,
      ¬ tk.id = "zzz") ∧
    GameReview.toggleTaskComplete GameReview.exGameOne "zzz" 7 =
      (GameReview.exGameOne, none) := by
  constructor
  · decide
  · decide

/-- The converse scan lemma: when no task in any present category array
has the id, the `Object.entries` scan finds nothing. -/
theorem GameReview.findInIssues_eq_none {is : GameReview.Issues} {tid : String}
    (h : ∀ tk ∈ GameReview.issuesTasks is, ¬ tk.id = tid) :
    GameReview.findInIssues is tid = none := by
  have hb : GameReview.findEntry Category.bug is.bug tid = none :=
    GameReview.findEntry_eq_none (fun tk hm => h tk
      (by simp [GameReview.issuesTasks, List.mem_append]; tauto))
  have hc : GameReview.findEntry Category.controls is.controls tid = none :=
    GameReview.findEntry_eq_none (fun tk hm => h tk
      (by simp [GameReview.issuesTasks, List.mem_append]; tauto))
  have hq : GameReview.findEntry Category.quest is.quest tid = none :=
    GameReview.findEntry_eq_none (fun tk hm => h tk
      (by simp [GameReview.issuesTasks, List.mem_append]; tauto))
  have hr : GameReview.findEntry Category.review is.review tid = none :=
    GameReview.findEntry_eq_none (fun tk hm => h tk
      (by simp [GameReview.issuesTasks, List.mem_append]; tauto))
  rw [GameReview.findInIssues, hb, hc, hq, hr]

/-- Claim C7, amended: when the task id matches no task in any category
array, `toggleTaskComplete` is a silent no-op — the game is returned
unchanged and no notification (neither success nor error) is produced. -/
theorem toggleTaskComplete_not_found (g : GameReview.Game) (tid : String) (now : Int)
    (h : ∀ tk ∈ GameReview.selectTasks g GameReview.Filter.all, ¬ tk.id = tid) :
    GameReview.toggleTaskComplete g tid now = (g, none) := by
  unfold GameReview.toggleTaskComplete
  cases hg : g.issues with
  | none => rfl
  | some is =>
    have hall : ∀ tk ∈ GameReview.issuesTasks is, ¬ tk.id = tid := by
      intro tk hm
      exact h tk (by rw [GameReview.selectTasks_all_eq hg]; exact hm)
    simp [GameReview.findInIssues_eq_none hall]

/-- Witness for the amended C7 theorem: toggling an id absent from a
concrete game returns the game unchanged with no notification. -/
theorem toggleTaskComplete_not_found_witness :
    GameReview.toggleTaskComplete GameReview.exGameMut "ghost" 3 =
      (GameReview.exGameMut, none) :=
  toggleTaskComplete_not_found GameReview.exGameMut "ghost" 3 (by decide)

/-! ## Claim C8: `addComment` rejects empty text -/

/-- Claim C8: `addComment` with text that is empty after trimming fails
with the validation error notification (`'Please enter a comment.'`,
shown with kind `'error'`) and returns before touching anything — the
game, hence every task's comment list, is exactly the one passed in. -/
theorem addComment_empty_text_rejected (g : GameReview.Game) (tid textRaw authorId : String)
    (members : List GameReview.Member) (now : Int) (newId : String)
    (h : jsTrim textRaw = "") :
    GameReview.addComment g tid textRaw authorId members now newId =
      (g, some (Outcome.err "Please enter a comment.")) := by
  unfold GameReview.addComment
  rw [if_pos h]

/-- Witness for C8: a whitespace-only comment on a concrete game is
rejected with the validation error and the game is unchanged. -/
theorem addComment_empty_text_rejected_witness :
    GameReview.addComment GameReview.exGameOne "t1" "   " "m1" [GameReview.exMember] 4 "c1" =
      (GameReview.exGameOne, some (Outcome.err "Please enter a comment.")) :=
  addComment_empty_text_rejected GameReview.exGameOne "t1" "   " "m1"
    [GameReview.exMember] 4 "c1" (by decide)

/-! ## Claim C10: `parseMediaLinks` keeps only recognized media lines -/

/-- Claim C10: every stored media link is of type `image` or `video`, and
whenever some non-blank line is neither an image URL nor a YouTube URL,
that line is silently dropped, so the parsed list is strictly shorter
than the list of non-blank lines supplied. -/
theorem parseMediaLinks_drops_unrecognized (text : String)
    (h : ∃ line ∈ GameReview.nonBlankLines text,
      GameReview.getMediaType (jsTrim line) = none) :
    (∀ m ∈ GameReview.parseMediaLinks text,
      m.type = MediaType.image ∨ m.type = MediaType.video) ∧
    (GameReview.parseMediaLinks text).length < (GameReview.nonBlankLines text).length := by
  constructor
  · intro m _
    rcases m with ⟨u, ty⟩
    cases ty
    · exact Or.inl rfl
    · exact Or.inr rfl
  · rw [GameReview.parseMediaLinks_eq_filterMap, length_filterMap_eq_countP]
    unfold GameReview.nonBlankLines
    rw [← List.countP_eq_length_filter]
    obtain ⟨line, hmem, hnone⟩ := h
    have hm2 := List.mem_filter.mp (by
      unfold GameReview.nonBlankLines at hmem
      exact hmem)
    refine countP_lt_of_gap _ _ _ ?_ line hm2.1 hm2.2 ?_
    · intro a _ hpa
      by_cases ha : jsTrim a = ""
      · simp [GameReview.mediaPick, ha] at hpa
      · simp [ha]
    · simp [GameReview.mediaPick, hnone]

/-- Witness for C10: the input `"foo\nhttp://a.jpg"` has two non-blank
lines, of which `"foo"` is not recognized as media, so only one link is
stored. -/
theorem parseMediaLinks_drops_unrecognized_witness :
    (∀ m ∈ GameReview.parseMediaLinks "foo\nhttp://a.jpg",
      m.type = MediaType.image ∨ m.type = MediaType.video) ∧
    (GameReview.parseMediaLinks "foo\nhttp://a.jpg").length <
      (GameReview.nonBlankLines "foo\nhttp://a.jpg").length :=
  parseMediaLinks_drops_unrecognized "foo\nhttp://a.jpg" (by decide)

/-! ## Claim C6: deletion moves the task into the audit log -/

/-- Claim C6: on a game holding exactly one task with id `tid` (ids are
unique by the data model) whose audit log does not yet mention `tid`,
`deleteTask` with a non-empty reason and a selected member removes the
id from all four category arrays — a subsequent `filterTasks(game,'all')`
never includes it — and `tid` occurs exactly once in
`game.deletedTasks`, as a snapshot of the task plus `deletedAt`,
`deletedBy` and `deleteReason`. -/
theorem deleteTask_audit_move (g : GameReview.Game) (tid reasonRaw deletedById : String)
    (members : List GameReview.Member) (now : Int)
    (hr : ¬ jsTrim reasonRaw = "")
    (hb : ¬ deletedById = "")
    (huniq : (GameReview.selectTasks g GameReview.Filter.all).countP
      (fun t => decide (t.id = tid)) = 1)
    (hdel : ∀ d ∈ g.deletedTasks, ¬ d.task.id = tid) :
    (∀ tk ∈ GameReview.selectTasks
        (GameReview.deleteTask g tid reasonRaw deletedById members now).1
        GameReview.Filter.all, ¬ tk.id = tid) ∧
    ((GameReview.deleteTask g tid reasonRaw deletedById members now).1.deletedTasks.countP
      (fun d => decide (d.task.id = tid)) = 1) ∧
    ∃ d ∈ (GameReview.deleteTask g tid reasonRaw deletedById members now).1.deletedTasks,
      d.task.id = tid ∧
      d.task ∈ GameReview.selectTasks g GameReview.Filter.all ∧
      d.deletedAt = now ∧
      d.deletedBy = GameReview.memberName members deletedById ∧
      d.deleteReason = jsTrim reasonRaw := by
  cases hg : g.issues with
  | none =>
    exfalso
    rw [GameReview.selectTasks_all_none hg] at huniq
    simp at huniq
  | some is =>
    rw [GameReview.selectTasks_all_eq hg] at huniq
    cases hf : GameReview.findInIssues is tid with
    | none =>
      exfalso
      have hall := GameReview.findInIssues_none_mem hf
      have h0 : (GameReview.issuesTasks is).countP (fun t => decide (t.id = tid)) = 0 :=
        List.countP_eq_zero.mpr (fun a ha => by simpa using hall a ha)
      omega
    | some r =>
      obtain ⟨c, arr, tk⟩ := r
      obtain ⟨hget, hfindarr⟩ := GameReview.findInIssues_eq_some hf
      have htkid : tk.id = tid := by simpa using List.find?_some hfindarr
      have htkmem : tk ∈ arr := List.mem_of_find?_eq_some hfindarr
      have herase := countP_eraseP_of_find (fun t => decide (t.id = tid)) arr tk hfindarr
      have hsum := GameReview.countP_issuesTasks_setCat (fun t => decide (t.id = tid)) is c
        (some (arr.eraseP (fun t => decide (t.id = tid))))
      rw [hget] at hsum
      have hnew : (GameReview.issuesTasks (GameReview.setCat is c
          (some (arr.eraseP (fun t => decide (t.id = tid)))))).countP
          (fun t => decide (t.id = tid)) = 0 := by
        simp only [GameReview.optTasks, Option.getD_some] at hsum
        omega
      have hres : GameReview.deleteTask g tid reasonRaw deletedById members now =
          ({ g with
              issues := some (GameReview.setCat is c
                (some (arr.eraseP (fun t => decide (t.id = tid)))))
              deletedTasks := g.deletedTasks ++
                [{ task := tk
                   deletedAt := now
                   deletedBy := GameReview.memberName members deletedById
                   deleteReason := jsTrim reasonRaw }] },
            some (Outcome.ok "Task deleted successfully!")) := by
        simp only [GameReview.deleteTask, hg, hf, if_neg hr, if_neg hb]
      rw [hres]
      refine ⟨?_, ?_, ?_⟩
      · intro tk' hm
        rw [GameReview.selectTasks_all_eq rfl] at hm
        have h0 := List.countP_eq_zero.mp hnew tk' hm
        simpa using h0
      · have h0 : g.deletedTasks.countP (fun d => decide (d.task.id = tid)) = 0 :=
          List.countP_eq_zero.mpr (fun d hd => by simpa using hdel d hd)
        simp [List.countP_append, h0, htkid]
      · refine ⟨{ task := tk
                  deletedAt := now
                  deletedBy := GameReview.memberName members deletedById
                  deleteReason := jsTrim reasonRaw }, ?_, htkid, ?_, rfl, rfl, rfl⟩
        · simp
        · rw [GameReview.selectTasks_all_eq hg]
          exact GameReview.mem_issuesTasks_of_getCat hget htkmem

/-- Witness for C6: deleting the single task `"t1"` of a concrete game
with reason `"dup"` removes it from the active arrays and records it
exactly once in the audit log. -/
theorem deleteTask_audit_move_witness :
    (∀ tk ∈ GameReview.selectTasks
        (GameReview.deleteTask GameReview.exGameOne "t1" "dup" "m1"
          [GameReview.exMember] 9).1 GameReview.Filter.all, ¬ tk.id = "t1") ∧
    ((GameReview.deleteTask GameReview.exGameOne "t1" "dup" "m1"
        [GameReview.exMember] 9).1.deletedTasks.countP
      (fun d => decide (d.task.id = "t1")) = 1) ∧
    ∃ d ∈ (GameReview.deleteTask GameReview.exGameOne "t1" "dup" "m1"
        [GameReview.exMember] 9).1.deletedTasks,
      d.task.id = "t1" ∧
      d.task ∈ GameReview.selectTasks GameReview.exGameOne GameReview.Filter.all ∧
      d.deletedAt = 9 ∧
      d.deletedBy = GameReview.memberName [GameReview.exMember] "m1" ∧
      d.deleteReason = jsTrim "dup" :=
  deleteTask_audit_move GameReview.exGameOne "t1" "dup" "m1" [GameReview.exMember] 9
    (by decide) (by decide) (by decide) (by decide)
